import Mathlib

/-!
Verification of the invoice OCR pipeline's text-processing core.

The development embeds, as executable Lean definitions, the pure logic of:
- `src/ocr/compare_ocr.py` (`AMOUNT_RE`, `TOTAL_KEYWORDS`, `find_total_in_text`),
- `src/normalisation.py` (`normalize_amount`, `normalize_date`),
- `src/dictionaries/__init__.py` (`detect_language`),
- `src/decision/select_best_ocr.py` and `scripts/process_orange_factures.py`
  (`score_result`, `select_best`, `select_best_orange`),
- `src/structurer/ocr_to_structured_json.py`
  (`bbox_union`, `group_lines_into_blocks`, `structure_ocr`).

Python floats arising from parsed decimal strings are modelled exactly by the
type `Dec` (an integer mantissa with a base-10 scale); scores and mean
confidences in the arbiter are modelled as rationals.
-/

namespace InvoicePipeline

/-- Exact decimal number `man / 10 ^ scale`, modelling a Python float obtained
by parsing a decimal literal.  All operations are kernel-computable. -/
structure Dec where
  man : Int
  scale : Nat
deriving DecidableEq, Repr

/-- Rational value of a decimal. -/
def decVal (d : Dec) : ℚ := (d.man : ℚ) / (10 : ℚ) ^ d.scale

/-- `a < b` on decimals, by cross multiplication. -/
def decLt (a b : Dec) : Bool := decide (a.man * 10 ^ b.scale < b.man * 10 ^ a.scale)

/-- `a ≤ b` on decimals, by cross multiplication. -/
def decLe (a b : Dec) : Bool := decide (a.man * 10 ^ b.scale ≤ b.man * 10 ^ a.scale)

/-- Subtraction of decimals (used for vertical gaps in the structurer). -/
def decSub (a b : Dec) : Dec :=
  let s := max a.scale b.scale
  ⟨a.man * 10 ^ (s - a.scale) - b.man * 10 ^ (s - b.scale), s⟩

/-- Python `min` over a nonempty list: keeps the first strictly smallest
element.  The empty case (which raises in Python) returns `⟨0, 0⟩`. -/
def decListMin : List Dec → Dec
  | [] => ⟨0, 0⟩
  | x :: xs => xs.foldl (fun b y => if decLt y b then y else b) x

/-- Python `max` over a nonempty list: keeps the first strictly largest
element.  The empty case (which raises in Python) returns `⟨0, 0⟩`. -/
def decListMax : List Dec → Dec
  | [] => ⟨0, 0⟩
  | x :: xs => xs.foldl (fun b y => if decLt b y then y else b) x

/-! ### Python character and string primitives -/

/-- The whitespace characters recognised by Python's `\s` and `str.split`,
restricted to the code points that can reach this pipeline. -/
def pySpace (c : Char) : Bool :=
  c = ' ' || c = '\t' || c = '\n' || c = '\x0b' || c = '\x0c' || c = '\r' ||
  c = '\u00A0' || c = '\u202F'

/-- `str.lower`, restricted to ASCII letters and the accented Latin-1
uppercase letters that occur in the keyword sets. -/
def pyLowerChar (c : Char) : Char :=
  if 'A' ≤ c && c ≤ 'Z' then Char.ofNat (c.toNat + 32)
  else if c = 'À' then 'à'
  else if c = 'Â' then 'â'
  else if c = 'Ç' then 'ç'
  else if c = 'É' then 'é'
  else if c = 'È' then 'è'
  else if c = 'Ê' then 'ê'
  else if c = 'Î' then 'î'
  else if c = 'Ô' then 'ô'
  else if c = 'Û' then 'û'
  else if c = 'Ù' then 'ù'
  else c

/-- Strip the combining accent left by NFD decomposition: maps each accented
lowercase Latin-1 letter used by the pipeline to its base letter. -/
def stripAccent (c : Char) : Char :=
  if c = 'à' || c = 'â' || c = 'ä' then 'a'
  else if c = 'é' || c = 'è' || c = 'ê' || c = 'ë' then 'e'
  else if c = 'î' || c = 'ï' then 'i'
  else if c = 'ô' || c = 'ö' then 'o'
  else if c = 'û' || c = 'ù' || c = 'ü' then 'u'
  else if c = 'ç' then 'c'
  else c

/-- Substring test, Python's `needle in haystack`. -/
def containsSub (needle : List Char) : List Char → Bool
  | [] => needle.isPrefixOf []
  | c :: rest => needle.isPrefixOf (c :: rest) || containsSub needle rest

/-- Python `str.splitlines` for the line separators reaching this pipeline:
`\r\n`, `\r`, `\n`, `\x0b`, `\x0c`.  A trailing separator does not produce a
final empty line; the empty string yields no lines. -/
def pySplitlinesGo (cur : List Char) : List Char → List (List Char)
  | [] => if cur = [] then [] else [cur.reverse]
  | '\r' :: '\n' :: rest => cur.reverse :: pySplitlinesGo [] rest
  | '\r' :: rest => cur.reverse :: pySplitlinesGo [] rest
  | '\n' :: rest => cur.reverse :: pySplitlinesGo [] rest
  | '\x0b' :: rest => cur.reverse :: pySplitlinesGo [] rest
  | '\x0c' :: rest => cur.reverse :: pySplitlinesGo [] rest
  | c :: rest => pySplitlinesGo (c :: cur) rest

/-- Python `str.splitlines`. -/
def pySplitlines (cs : List Char) : List (List Char) := pySplitlinesGo [] cs

/-- Split a character list on a separator character, Python `str.split(sep)`. -/
def splitOnCharGo (sep : Char) (cur : List Char) : List Char → List (List Char)
  | [] => [cur.reverse]
  | c :: rest =>
    if c = sep then cur.reverse :: splitOnCharGo sep [] rest
    else splitOnCharGo sep (c :: cur) rest

/-- Python `str.split(sep)` for a one-character separator. -/
def splitOnChar (sep : Char) (cs : List Char) : List (List Char) :=
  splitOnCharGo sep [] cs

/-- Index of the last occurrence of `c` (Python `str.rfind`, defined, as at
its call sites, only when `c` occurs; absent characters give 0). -/
def rfindPos (c : Char) (cs : List Char) : Nat :=
  (cs.foldl (fun (p : Nat × Nat) d => if d = c then (p.1 + 1, p.1) else (p.1 + 1, p.2)) (0, 0)).2

/-! ### Python `float()` on decimal strings -/

/-- Characters allowed inside a digit run: digits and grouping underscores. -/
def runChar (c : Char) : Bool := c.isDigit || c = '_'

/-- No two adjacent underscores in a digit run. -/
def noDoubleUnderscore : List Char → Bool
  | '_' :: '_' :: _ => false
  | _ :: rest => noDoubleUnderscore rest
  | [] => true

/-- A digit run is well formed when it starts and ends with a digit and has
no doubled underscore (Python's grouping-underscore rule). -/
def validRun (r : List Char) : Bool :=
  match r.head?, r.getLast? with
  | some a, some b => a.isDigit && b.isDigit && noDoubleUnderscore r
  | _, _ => false

/-- Numeric value of a digit run, ignoring underscores. -/
def runVal (r : List Char) : Nat :=
  r.foldl (fun acc c => if c = '_' then acc else acc * 10 + (c.toNat - 48)) 0

/-- Number of digits in a run. -/
def runDigits (r : List Char) : Nat := (r.filter Char.isDigit).length

/-- Build the decimal `sgn * (intPart.fracPart) * 10 ^ ex`. -/
def decOfParts (sgn : Int) (intv : Nat) (fracv : Nat) (fracn : Nat) (ex : Int) : Dec :=
  let man : Int := sgn * (intv * 10 ^ fracn + fracv)
  let e : Int := ex - fracn
  if 0 ≤ e then ⟨man * 10 ^ e.toNat, 0⟩ else ⟨man, (-e).toNat⟩

/-- Parse the exponent suffix of a float literal (after `e`/`E`). -/
def parseExp (cs : List Char) : Option Int :=
  match cs with
  | '+' :: rest =>
    let (r, rest2) := rest.span runChar
    if validRun r && rest2 = [] then some (runVal r) else none
  | '-' :: rest =>
    let (r, rest2) := rest.span runChar
    if validRun r && rest2 = [] then some (-(runVal r : Int)) else none
  | _ =>
    let (r, rest2) := cs.span runChar
    if validRun r && rest2 = [] then some (runVal r) else none

/-- Parse mantissa-and-exponent after the optional sign. -/
def parseBody (sgn : Int) (cs : List Char) : Option Dec :=
  let (ir, rest1) := cs.span runChar
  let intOk := ir = [] || validRun ir
  if !intOk then none
  else
    match rest1 with
    | [] => if ir = [] then none else some (decOfParts sgn (runVal ir) 0 0 0)
    | '.' :: rest2 =>
      let (fr, rest3) := rest2.span runChar
      let fracOk := fr = [] || validRun fr
      if !fracOk || (ir = [] && fr = []) then none
      else
        match rest3 with
        | [] => some (decOfParts sgn (runVal ir) (runVal fr) (runDigits fr) 0)
        | 'e' :: rest4 =>
          (parseExp rest4).map (decOfParts sgn (runVal ir) (runVal fr) (runDigits fr))
        | 'E' :: rest4 =>
          (parseExp rest4).map (decOfParts sgn (runVal ir) (runVal fr) (runDigits fr))
        | _ => none
    | 'e' :: rest2 =>
      if ir = [] then none
      else (parseExp rest2).map (decOfParts sgn (runVal ir) 0 0)
    | 'E' :: rest2 =>
      if ir = [] then none
      else (parseExp rest2).map (decOfParts sgn (runVal ir) 0 0)
    | _ => none

/-- Python `float()` on the decimal strings produced by this pipeline
(`None` models `ValueError`). -/
def pyFloat (s : String) : Option Dec :=
  match s.toList with
  | '+' :: rest => parseBody 1 rest
  | '-' :: rest => parseBody (-1) rest
  | cs => parseBody 1 cs

/-- Digits of a natural number, most significant first (fuel-driven so the
kernel can evaluate it). -/
def natDigitsGo : Nat → Nat → List Char → List Char
  | 0, _, acc => acc
  | fuel + 1, n, acc =>
    let d := Char.ofNat (48 + n % 10)
    if n < 10 then d :: acc else natDigitsGo fuel (n / 10) (d :: acc)
-- the first argument is fuel, always at least the number itself

/-- Decimal digit string of a natural number. -/
def natDigits (n : Nat) : List Char := natDigitsGo (n + 1) n []

/-- Left-pad with `'0'` to length `k`. -/
def padZeros (k : Nat) (ds : List Char) : List Char :=
  List.replicate (k - ds.length) '0' ++ ds

/-- Drop trailing `'0'` characters. -/
def stripTrailingZeros (ds : List Char) : List Char :=
  (ds.reverse.dropWhile (· = '0')).reverse

/-- Python `str()` of a float holding the decimal `d`: minimal decimal digits,
always at least one fractional digit. -/
def pyFloatStr (d : Dec) : String :=
  let ds := padZeros (d.scale + 1) (natDigits d.man.natAbs)
  let intPart := ds.take (ds.length - d.scale)
  let frac := stripTrailingZeros (ds.drop (ds.length - d.scale))
  let frac := if frac = [] then ['0'] else frac
  let sign : List Char := if d.man < 0 then ['-'] else []
  String.mk (sign ++ intPart ++ ['.'] ++ frac)

/-! ### `src/ocr/compare_ocr.py`: `AMOUNT_RE` and `TOTAL_KEYWORDS`

`AMOUNT_RE = (\d{1,3}(?:[  ,]\d{3})*(?:[.,]\d{2}))\s*(€|EUR|DT|TND)?`
with `re.IGNORECASE`.  The matcher below implements the leftmost search with
the greedy backtracking order of Python's `re` for exactly this pattern. -/

/-- Character of `cs` at index `i`; out-of-range positions read as `'\x00'`,
which belongs to no character class of the pattern. -/
def chAt (cs : List Char) (i : Nat) : Char := cs.getD i '\x00'

/-- The thousands-separator class `[  ,]`. -/
def isAmtSep (c : Char) : Bool := c = ' ' || c = '\u00A0' || c = ','

/-- `k` digit characters starting at index `i`. -/
def digitsFrom (cs : List Char) (i k : Nat) : Bool :=
  (List.range k).all fun j => (chAt cs (i + j)).isDigit

/-- End positions reachable by `(?:[  ,]\d{3})*` starting at `j`, in the
greedy backtracking order (most repetitions first). -/
def starPos (cs : List Char) : Nat → Nat → List Nat
  | 0, j => [j]
  | fuel + 1, j =>
    if isAmtSep (chAt cs j) && digitsFrom cs (j + 1) 3 then
      starPos cs fuel (j + 4) ++ [j]
    else [j]

/-- The mandatory decimal tail `(?:[.,]\d{2})` at position `p`; returns the
end position of group 1. -/
def decTail (cs : List Char) (p : Nat) : Option Nat :=
  if (chAt cs p = '.' || chAt cs p = ',') && digitsFrom cs (p + 1) 2 then
    some (p + 3)
  else none

/-- First position in `ps` where the decimal tail matches. -/
def firstTail (cs : List Char) : List Nat → Option Nat
  | [] => none
  | p :: ps =>
    match decTail cs p with
    | some e => some e
    | none => firstTail cs ps

/-- Attempt `\d{d}` at `i` followed by the star and the decimal tail. -/
def amtTryLen (cs : List Char) (i d : Nat) : Option Nat :=
  if digitsFrom cs i d then firstTail cs (starPos cs (cs.length + 1) (i + d))
  else none

/-- End position of group 1 of `AMOUNT_RE` matching exactly at `i`
(`\d{1,3}` greedily tries 3, 2, then 1 digits). -/
def amtGroupEnd (cs : List Char) (i : Nat) : Option Nat :=
  match amtTryLen cs i 3 with
  | some e => some e
  | none =>
    match amtTryLen cs i 2 with
    | some e => some e
    | none => amtTryLen cs i 1

/-- End of the whole `AMOUNT_RE` match: group 1 end, then `\s*`, then the
optional currency token, tried in the order `€`, `EUR`, `DT`, `TND`,
case-insensitively. -/
def amtFullEnd (cs : List Char) (g : Nat) : Nat :=
  let w := g + ((cs.drop g).takeWhile pySpace).length
  if chAt cs w = '€' then w + 1
  else if (pyLowerChar (chAt cs w) = 'e' && pyLowerChar (chAt cs (w + 1)) = 'u' &&
           pyLowerChar (chAt cs (w + 2)) = 'r') then w + 3
  else if (pyLowerChar (chAt cs w) = 'd' && pyLowerChar (chAt cs (w + 1)) = 't') then w + 2
  else if (pyLowerChar (chAt cs w) = 't' && pyLowerChar (chAt cs (w + 1)) = 'n' &&
           pyLowerChar (chAt cs (w + 2)) = 'd') then w + 3
  else w

/-- Leftmost match attempt from position `i`: the first start index whose
group 1 matches, with the group's end. -/
def amtSearchFrom (cs : List Char) : Nat → Nat → Option (Nat × Nat)
  | 0, _ => none
  | fuel + 1, i =>
    if i ≤ cs.length then
      match amtGroupEnd cs i with
      | some g => some (i, g)
      | none => amtSearchFrom cs fuel (i + 1)
    else none

/-- Python `AMOUNT_RE.search(s).group(1)`: the leftmost amount substring. -/
def amtSearch (cs : List Char) : Option (List Char) :=
  (amtSearchFrom cs (cs.length + 1) 0).map fun p => (cs.drop p.1).take (p.2 - p.1)

/-- Python `AMOUNT_RE.findall(s)` restricted to group 1: scan resumes at the
end of each full match. -/
def amtFindallGo (cs : List Char) : Nat → Nat → List (List Char)
  | 0, _ => []
  | fuel + 1, pos =>
    match amtSearchFrom cs (cs.length + 1 - pos) pos with
    | none => []
    | some (i, g) => (cs.drop i).take (g - i) :: amtFindallGo cs fuel (amtFullEnd cs g)

/-- All group-1 matches of `AMOUNT_RE` over the text. -/
def amtFindall (cs : List Char) : List (List Char) :=
  amtFindallGo cs (cs.length + 1) 0

/-- The amount-normalisation applied by `find_total_in_text`:
`.replace(" ", "").replace(" ", "").replace(",", ".")`. -/
def cleanAmt (g : List Char) : List Char :=
  (g.filter fun c => !(c = ' ' || c = '\u00A0')).map fun c => if c = ',' then '.' else c

/-- `TOTAL_KEYWORDS` from `compare_ocr.py`. -/
def TOTAL_KEYWORDS : List (List Char) :=
  ["total t.t.c".toList, "total ttc".toList, "total à payer".toList,
   "total t.t.c.".toList, "total".toList]

/-- A line matches when any keyword is a substring of its lowercase form. -/
def hasKeyword (line : List Char) : Bool :=
  TOTAL_KEYWORDS.any fun k => containsSub k (line.map pyLowerChar)

/-- The bottom-up keyword loop of `find_total_in_text`, applied to the
reversed line list: on a keyword line whose `AMOUNT_RE.search` succeeds,
return the cleaned group; otherwise keep scanning. -/
def keywordScan : List (List Char) → Option String
  | [] => none
  | l :: rest =>
    if hasKeyword l then
      match amtSearch l with
      | some g => some (String.mk (cleanAmt g))
      | none => keywordScan rest
    else keywordScan rest

/-- The fallback branch of `find_total_in_text`: all matches over the whole
text, cleaned; the maximum float if every candidate parses, else the last
cleaned match; `None` when there is no match at all. -/
def find_total_fallback (cs : List Char) : Option String :=
  let ms := amtFindall cs
  if ms = [] then none
  else
    let cleaned := ms.map cleanAmt
    if cleaned.all fun c => (pyFloat (String.mk c)).isSome then
      some (pyFloatStr (decListMax (cleaned.map fun c => (pyFloat (String.mk c)).getD ⟨0, 0⟩)))
    else
      match cleaned.getLast? with
      | some r => some (String.mk r)
      | none => none

/-- `find_total_in_text` from `compare_ocr.py`. -/
def find_total_in_text (text_block : String) : Option String :=
  let lines := pySplitlines text_block.toList
  match keywordScan lines.reverse with
  | some s => some s
  | none => find_total_fallback text_block.toList

/-! ### `src/normalisation.py` -/

/-- The character class removed by `normalize_amount`:
`re.sub(r'[€$£¥\sA-Z]', '', ...)`. -/
def amountStripChar (c : Char) : Bool :=
  c = '€' || c = '$' || c = '£' || c = '¥' || pySpace c || ('A' ≤ c && c ≤ 'Z')

/-- `normalize_amount` from `normalisation.py`: strip currency symbols,
whitespace and uppercase letters, resolve the decimal separator by position,
then parse as a float. -/
def normalize_amount (value : String) : Option Dec :=
  let v := value.toList.filter fun c => !amountStripChar c
  if v = [] then none
  else
    let has_comma := v.contains ','
    let has_dot := v.contains '.'
    let v2 :=
      if has_comma && has_dot then
        if rfindPos '.' v < rfindPos ',' v then
          (v.filter (· ≠ '.')).map fun c => if c = ',' then '.' else c
        else v.filter (· ≠ ',')
      else if has_comma && !has_dot then
        let parts := splitOnChar ',' v
        if ((parts.getLast?).getD []).length ≤ 2 then
          v.map fun c => if c = ',' then '.' else c
        else v.filter (· ≠ ',')
      else v
    pyFloat (String.mk v2)

/-- Exactly `k` leading digits, returned with the remainder. -/
def takeDigitsExact (cs : List Char) (k : Nat) : Option (List Char × List Char) :=
  let d := cs.take k
  if d.length = k && d.all Char.isDigit then some (d, cs.drop k) else none

/-- The separator class `[\/\-]` of the date pattern. -/
def isDateSep (c : Char) : Bool := c = '/' || c = '-'

/-- `\d{2,4}` at the start of `cs`, greedy (trailing input may remain). -/
def yearAt (cs : List Char) : Option (List Char) :=
  match takeDigitsExact cs 4 with
  | some (y, _) => some y
  | none =>
    match takeDigitsExact cs 3 with
    | some (y, _) => some y
    | none =>
      match takeDigitsExact cs 2 with
      | some (y, _) => some y
      | none => none

/-- `\d{1,2}[\/\-]\d{2,4}` (month and year), month greedy. -/
def monthYearAt (cs : List Char) (mlen : Nat) : Option (List Char × List Char) :=
  match takeDigitsExact cs mlen with
  | none => none
  | some (m, rest) =>
    match rest with
    | c :: rest2 => if isDateSep c then (yearAt rest2).map fun y => (m, y) else none
    | [] => none

/-- `re.match(r'(\d{1,2})[\/\-](\d{1,2})[\/\-](\d{2,4})', ...)`: anchored at
the start, each numeric group greedy with backtracking. -/
def dateMatchDay (cs : List Char) (dlen : Nat) : Option (List Char × List Char × List Char) :=
  match takeDigitsExact cs dlen with
  | none => none
  | some (d, rest) =>
    match rest with
    | c :: rest2 =>
      if isDateSep c then
        match monthYearAt rest2 2 with
        | some (m, y) => some (d, m, y)
        | none =>
          match monthYearAt rest2 1 with
          | some (m, y) => some (d, m, y)
          | none => none
      else none
    | [] => none

/-- The full date match: day of 2 digits preferred over 1. -/
def dateMatch (cs : List Char) : Option (List Char × List Char × List Char) :=
  match dateMatchDay cs 2 with
  | some r => some r
  | none => dateMatchDay cs 1

/-- Python `str.zfill(2)` on a nonnegative digit string. -/
def zfill2 (s : List Char) : List Char :=
  List.replicate (2 - s.length) '0' ++ s

/-- `normalize_date` from `normalisation.py`: day-first parsing to ISO
`YYYY-MM-DD`, two-digit years prefixed with `"20"`; non-matching nonempty
input is returned unchanged; empty input gives `None`. -/
def normalize_date (value : String) : Option String :=
  if value = "" then none
  else
    match dateMatch value.toList with
    | some (day, month, year) =>
      let year := if year.length = 2 then '2' :: '0' :: year else year
      some (String.mk (year ++ ['-'] ++ zfill2 month ++ ['-'] ++ zfill2 day))
    | none => some value

/-! ### `src/dictionaries/__init__.py`: `detect_language` -/

/-- The normalisation applied by `detect_language`: lower-case, then strip
the combining marks produced by NFD decomposition. -/
def langNormChar (c : Char) : Char := stripAccent (pyLowerChar c)

/-- French keyword set. -/
def french_keywords : List (List Char) :=
  ["facture".toList, "designation".toList, "montant".toList, "ttc".toList,
   "tva".toList, "qte".toList]

/-- English keyword set. -/
def english_keywords : List (List Char) :=
  ["invoice".toList, "description".toList, "amount".toList, "total".toList,
   "vat".toList, "qty".toList]

/-- Number of keywords of `kws` occurring in the normalised text. -/
def kwScore (kws : List (List Char)) (nt : List Char) : Nat :=
  (kws.filter fun k => containsSub k nt).length

/-- Python `max(items, key=itemgetter(1))` over the insertion-ordered score
map: the first entry with the maximal score wins. -/
def pyMaxBySnd (h : String × Nat) (t : List (String × Nat)) : String × Nat :=
  t.foldl (fun b x => if b.2 < x.2 then x else b) h

/-- `detect_language` from `dictionaries/__init__.py`. -/
def detect_language (text : String) : String :=
  let nt := text.toList.map langNormChar
  let fr := kwScore french_keywords nt
  let en := kwScore english_keywords nt
  let best := pyMaxBySnd ("fr", fr) [("en", en)]
  if 0 < best.2 then best.1 else "generic"

/-! ### `src/decision/select_best_ocr.py` and
`scripts/process_orange_factures.py`: scoring and arbitration.

OCR lines carry a text, a confidence and a bounding quadrilateral; the OCR
call itself is external, so the arbitration functions are embedded as
functions of the recognition results it produces.  Confidences, scores and
coordinates on this side are rationals. -/

/-- One recognised line as produced by `run_ocr_on_image`. -/
structure RecLine where
  text : String
  conf : ℚ
  box : List (ℚ × ℚ)

/-- `statistics.mean` of the confidences, `0.0` for no lines, as computed by
`run_ocr_on_image`. -/
def avgConf (lines : List RecLine) : ℚ :=
  if lines.isEmpty then 0 else (lines.map RecLine.conf).sum / lines.length

/-- `"\n".join(texts)` as computed by `run_ocr_on_image`. -/
def fullText (lines : List RecLine) : String :=
  String.intercalate "\n" (lines.map RecLine.text)

/-- `CONF_MARGIN = 0.02`, identical in both arbitration modules. -/
def CONF_MARGIN : ℚ := 0.02

/-- `score_result`, identical in `select_best_ocr.py` and
`process_orange_factures.py`. -/
def score_result (avg_conf : ℚ) (total : Option String) (num_lines : ℕ) : ℚ :=
  let score := avg_conf
  let score := if total ≠ none then score + 0.05 else score
  score + min ((num_lines : ℚ) / 100) 0.05

/-- The decision record assembled by `select_best`. -/
structure Decision where
  chosen : String
  avg_conf : ℚ
  total : Option String
  lines : List RecLine

/-- `select_best` from `select_best_ocr.py`, as a function of the two OCR
results (original and processed images). -/
def select_best (ext_o ext_p : List RecLine) : Decision :=
  let conf_o := avgConf ext_o
  let text_o := fullText ext_o
  let conf_p := avgConf ext_p
  let text_p := fullText ext_p
  let total_o := find_total_in_text text_o
  let total_p := find_total_in_text text_p
  let score_o := score_result conf_o total_o ext_o.length
  let score_p := score_result conf_p total_p ext_p.length
  if score_o + CONF_MARGIN < score_p then
    ⟨"processed", conf_p, total_p, ext_p⟩
  else
    ⟨"original", conf_o, total_o, ext_o⟩

/-- The decision record assembled by `select_best_orange`. -/
structure OrangeDecision where
  chosen : String
  avg_conf : ℚ
  total : Option String
  lines : List RecLine
  score : ℚ
  score_original : ℚ
  score_preprocessed : ℚ

/-- `select_best_orange` from `process_orange_factures.py`, as a function of
the two OCR outcomes; a failed OCR call passes `([], 0.0, "")`. -/
def select_best_orange (ext_o : List RecLine) (conf_o : ℚ) (text_o : String)
    (ext_p : List RecLine) (conf_p : ℚ) (text_p : String) : OrangeDecision :=
  let total_o := if text_o ≠ "" then find_total_in_text text_o else none
  let total_p := if text_p ≠ "" then find_total_in_text text_p else none
  let score_o := if ext_o.isEmpty then 0 else score_result conf_o total_o ext_o.length
  let score_p := if ext_p.isEmpty then 0 else score_result conf_p total_p ext_p.length
  if score_o + CONF_MARGIN < score_p ∧ 0 < ext_p.length then
    ⟨"preprocessed", conf_p, total_p, ext_p, score_p, score_o, score_p⟩
  else
    ⟨"original", conf_o, total_o, ext_o, score_o, score_o, score_p⟩

/-! ### `src/structurer/ocr_to_structured_json.py`

Lines enter the structurer as dictionaries `{text, conf, box}` where `box` is
a list of points; coordinates are modelled as exact decimals so that the
geometry is kernel-computable. -/

/-- One OCR line as consumed by the structurer. -/
structure SLine where
  text : String
  conf : Dec
  box : List (Dec × Dec)
deriving DecidableEq, Repr

/-- `bbox_left(b) = min(p[0] for p in b)`. -/
def bbox_left (b : List (Dec × Dec)) : Dec := decListMin (b.map Prod.fst)

/-- `bbox_right(b) = max(p[0] for p in b)`. -/
def bbox_right (b : List (Dec × Dec)) : Dec := decListMax (b.map Prod.fst)

/-- `bbox_top(b) = min(p[1] for p in b)`. -/
def bbox_top (b : List (Dec × Dec)) : Dec := decListMin (b.map Prod.snd)

/-- `bbox_bottom(b) = max(p[1] for p in b)`. -/
def bbox_bottom (b : List (Dec × Dec)) : Dec := decListMax (b.map Prod.snd)

/-- `bbox_union(boxes)`: coordinate-wise min/max over a list of boxes. -/
def bbox_union (boxes : List (List (Dec × Dec))) : List Dec :=
  [decListMin (boxes.map bbox_left), decListMin (boxes.map bbox_top),
   decListMax (boxes.map bbox_right), decListMax (boxes.map bbox_bottom)]

/-- Stable insertion into a list: the new element goes before the first
element it is strictly below. -/
def stableInsert (lt : SLine → SLine → Bool) (x : SLine) : List SLine → List SLine
  | [] => [x]
  | y :: ys => if lt x y then x :: y :: ys else y :: stableInsert lt x ys

/-- Comparison used by `sorted(lines, key=lambda l: bbox_top(l["box"]))`. -/
def topLt (a b : SLine) : Bool := decLt (bbox_top a.box) (bbox_top b.box)

/-- Python `sorted` by top coordinate: a stable sort, realised by inserting
the lines in order into an accumulator. -/
def pySortLines (lines : List SLine) : List SLine :=
  lines.foldl (fun acc x => stableInsert topLt x acc) []

/-- The loop body of `group_lines_into_blocks`: walk the sorted lines with an
open block `cur` and closed `blocks`; a line joins `cur` when the gap between
its top and the previous line's bottom is strictly below `y_gap`. -/
def groupGo (y_gap : Dec) : List SLine → List SLine → List (List SLine) → List (List SLine)
  | [], cur, blocks => if cur.isEmpty then blocks else blocks ++ [cur]
  | ln :: rest, [], blocks => groupGo y_gap rest [ln] blocks
  | ln :: rest, c :: cs, blocks =>
    let prev := (c :: cs).getLast (by simp)
    if decLt (decSub (bbox_top ln.box) (bbox_bottom prev.box)) y_gap then
      groupGo y_gap rest ((c :: cs) ++ [ln]) blocks
    else
      groupGo y_gap rest [ln] (blocks ++ [c :: cs])

/-- `group_lines_into_blocks(lines, y_gap=40)` from
`ocr_to_structured_json.py`. -/
def group_lines_into_blocks (lines : List SLine) (y_gap : Dec := ⟨40, 0⟩) :
    List (List SLine) :=
  groupGo y_gap (pySortLines lines) [] []

/-- One output line record of the structurer. -/
structure BlockLine where
  line_id : Nat
  text : String
  bbox : List Dec
  confidence : Dec
deriving DecidableEq, Repr

/-- One output block record of the structurer. -/
structure Block where
  block_id : Nat
  bbox : List Dec
  lines : List BlockLine
deriving DecidableEq, Repr

/-- `enumerate(·, start)` combined with a map, mirroring the 1-based
enumerations of `structure_ocr`. -/
def enumMap1 (f : Nat → α → β) : Nat → List α → List β
  | _, [] => []
  | i, x :: xs => f i x :: enumMap1 f (i + 1) xs

/-- The block-building core of `structure_ocr`: group the lines, then emit
each block with its `bbox_union` and its 1-based line records. -/
def structure_ocr_blocks (lines : List SLine) : List Block :=
  let blocks_raw := group_lines_into_blocks lines
  enumMap1 (fun i block =>
    { block_id := i
      bbox := bbox_union (block.map SLine.box)
      lines := enumMap1 (fun j l =>
        { line_id := j
          text := l.text
          bbox := [bbox_left l.box, bbox_top l.box, bbox_right l.box, bbox_bottom l.box]
          confidence := l.conf }) 1 block }) 1 blocks_raw

/-! ### Specification-side formulations used by the theorems -/

/-- The amount reported by one keyword line: the claim-side reading of a
single iteration of the keyword loop. -/
def lineAmount (l : List Char) : Option String :=
  if hasKeyword l then (amtSearch l).map fun g => String.mk (cleanAmt g) else none

/-- The parsed values of the fallback candidates. -/
def fallbackNums (cs : List Char) : List Dec :=
  ((amtFindall cs).map cleanAmt).map fun c => (pyFloat (String.mk c)).getD ⟨0, 0⟩

/-- Two lines close enough (gap strictly below the threshold) to share a
block. -/
def gapLtProp (y_gap : Dec) (a b : SLine) : Prop :=
  decLt (decSub (bbox_top b.box) (bbox_bottom a.box)) y_gap = true

/-- Non-strict top-coordinate comparison, the ascending-sort order. -/
def topLeProp (a b : SLine) : Prop := decLe (bbox_top a.box) (bbox_top b.box) = true

/-- Between two consecutive blocks, the first line of the second is separated
from the last line of the first by at least the threshold. -/
def blockBoundary (y_gap : Dec) (b1 b2 : List SLine) : Prop :=
  ∀ x ∈ b1.getLast?, ∀ y ∈ b2.head?, ¬ gapLtProp y_gap x y

/-- Coordinate-wise union (min-left, min-top, max-right, max-bottom) of the
`[l, t, r, b]` bboxes attached to a block's line records. -/
def lineBBoxUnion (ls : List BlockLine) : List Dec :=
  [decListMin (ls.map fun l => l.bbox.getD 0 ⟨0, 0⟩),
   decListMin (ls.map fun l => l.bbox.getD 1 ⟨0, 0⟩),
   decListMax (ls.map fun l => l.bbox.getD 2 ⟨0, 0⟩),
   decListMax (ls.map fun l => l.bbox.getD 3 ⟨0, 0⟩)]

/-! ### Concrete fixtures used by the closed instances -/

/-- A recognised line with full confidence. -/
def wLine : RecLine := ⟨"x", 1, []⟩

/-- Line with top 10 and bottom 30. -/
def exLine1 : SLine := ⟨"a", ⟨1, 0⟩, [(⟨0, 0⟩, ⟨10, 0⟩), (⟨10, 0⟩, ⟨30, 0⟩)]⟩

/-- Line with top 20 and bottom 30. -/
def exLine2 : SLine := ⟨"b", ⟨1, 0⟩, [(⟨0, 0⟩, ⟨20, 0⟩), (⟨10, 0⟩, ⟨30, 0⟩)]⟩

/-- Line with top 100 and bottom 110. -/
def exLine3 : SLine := ⟨"c", ⟨1, 0⟩, [(⟨0, 0⟩, ⟨100, 0⟩), (⟨10, 0⟩, ⟨110, 0⟩)]⟩

/-- Line with bbox `[0, 0, 10, 10]`. -/
def exBoxA : SLine := ⟨"a", ⟨9, 1⟩, [(⟨0, 0⟩, ⟨0, 0⟩), (⟨10, 0⟩, ⟨10, 0⟩)]⟩

/-- Line with bbox `[5, 5, 20, 20]`. -/
def exBoxB : SLine := ⟨"b", ⟨8, 1⟩, [(⟨5, 0⟩, ⟨5, 0⟩), (⟨20, 0⟩, ⟨20, 0⟩)]⟩

/-- The single block the structurer builds from `exBoxA` and `exBoxB`. -/
def exBlock : Block :=
  { block_id := 1
    bbox := [⟨0, 0⟩, ⟨0, 0⟩, ⟨20, 0⟩, ⟨20, 0⟩]
    lines := [⟨1, "a", [⟨0, 0⟩, ⟨0, 0⟩, ⟨10, 0⟩, ⟨10, 0⟩], ⟨9, 1⟩⟩,
              ⟨2, "b", [⟨5, 0⟩, ⟨5, 0⟩, ⟨20, 0⟩, ⟨20, 0⟩], ⟨8, 1⟩⟩] }

/-! ## Helper lemmas -/

/-- `find_total_in_text` unfolded to its two phases. -/
theorem find_total_eq (text : String) :
    find_total_in_text text =
      match keywordScan (pySplitlines text.toList).reverse with
      | some s => some s
      | none => find_total_fallback text.toList := rfl

/-- The keyword loop is exactly `findSome?` of the per-line amount over the
scanned lines. -/
theorem keywordScan_eq_findSome (ls : List (List Char)) :
    keywordScan ls = ls.findSome? lineAmount := by
  induction ls with
  | nil => rfl
  | cons l rest ih =>
    rw [List.findSome?_cons]
    by_cases hk : hasKeyword l
    · simp only [keywordScan, hk, if_true, lineAmount]
      cases hs : amtSearch l with
      | some g => simp [hs]
      | none => simp [hs, ih]
    · simp only [keywordScan, hk, if_false, lineAmount, Bool.false_eq_true]
      simp [ih]

/-- The mean confidence is nonnegative when every line confidence is. -/
theorem avgConf_nonneg (lines : List RecLine) (h : ∀ l ∈ lines, 0 ≤ l.conf) :
    0 ≤ avgConf lines := by
  unfold avgConf
  by_cases he : lines.isEmpty
  · simp [he]
  · rw [if_neg he]
    apply div_nonneg
    · apply List.sum_nonneg
      intro x hx
      obtain ⟨l, hl, rfl⟩ := List.mem_map.mp hx
      exact h l hl
    · exact_mod_cast Nat.zero_le _

/-- A score built from a nonnegative confidence is nonnegative. -/
theorem score_result_nonneg (c : ℚ) (t : Option String) (n : ℕ) (h : 0 ≤ c) :
    0 ≤ score_result c t n := by
  unfold score_result
  have hmin : (0 : ℚ) ≤ min ((n : ℚ) / 100) 0.05 := le_min (by positivity) (by norm_num)
  cases t <;> simp <;> linarith

/-- The score of the empty recognition result is zero. -/
theorem score_result_empty :
    score_result (avgConf ([] : List RecLine))
      (find_total_in_text (fullText ([] : List RecLine)))
      ([] : List RecLine).length = 0 := by
  have ht : find_total_in_text (fullText ([] : List RecLine)) = none := by decide
  rw [ht]
  show score_result 0 none 0 = 0
  unfold score_result
  norm_num

/-! ## C2 -/

/-- C2 (counterexample): on `"total 5,00\nblah 999,99\ntotal xx"`, the
bottom-most keyword line (`"total xx"`) has no amount, yet the function does
not fall through to the global-maximum fallback (value `"999.99"`); it keeps
scanning and returns `"5.00"` from the keyword line further up. -/
theorem find_total_scan_cont_cex :
    find_total_in_text "total 5,00\nblah 999,99\ntotal xx" = some "5.00" ∧
    find_total_fallback "total 5,00\nblah 999,99\ntotal xx".toList = some "999.99" := by
  constructor
  · decide
  · decide

/-- C2 (amended): the bottom-up keyword phase is `findSome?` over all
reversed lines — a keyword line without an amount is skipped and the scan
continues to earlier keyword lines; the global fallback runs only when no
keyword line at all yields an amount. -/
theorem find_total_scan_continues (text : String) :
    find_total_in_text text =
      match (pySplitlines text.toList).reverse.findSome? lineAmount with
      | some s => some s
      | none => find_total_fallback text.toList := by
  rw [find_total_eq, keywordScan_eq_findSome]

/-! ## C4 -/

/-- C4 (counterexample): the code expands the two-digit year `"99"` to
`"2099"`, not `"1999"`. -/
theorem normalize_date_year_cex :
    normalize_date "5-3-99" = some "2099-03-05" ∧
    ("2099-03-05" : String) ≠ "1999-03-05" := by
  constructor
  · decide
  · decide

/-- C4 (amended): `normalize_date` parses day-first with zero-padding, and
prefixes two-digit years with `"20"`. -/
theorem normalize_date_values :
    normalize_date "15/01/2024" = some "2024-01-15" ∧
    normalize_date "5-3-99" = some "2099-03-05" := by
  constructor
  · decide
  · decide

/-! ## C6 -/

/-- C6: positional decimal-separator resolution of `normalize_amount` on the
four specified inputs. -/
theorem normalize_amount_values :
    ((normalize_amount "1.200,50").map decVal = some (1200.50 : ℚ)) ∧
    ((normalize_amount "1,200.50").map decVal = some (1200.50 : ℚ)) ∧
    ((normalize_amount "100,50").map decVal = some (100.50 : ℚ)) ∧
    ((normalize_amount "1,200").map decVal = some (1200.0 : ℚ)) := by
  have h1 : normalize_amount "1.200,50" = some ⟨120050, 2⟩ := by decide
  have h2 : normalize_amount "1,200.50" = some ⟨120050, 2⟩ := by decide
  have h3 : normalize_amount "100,50" = some ⟨10050, 2⟩ := by decide
  have h4 : normalize_amount "1,200" = some ⟨1200, 0⟩ := by decide
  refine ⟨?_, ?_, ?_, ?_⟩
  · rw [h1]; simp [decVal]; norm_num
  · rw [h2]; simp [decVal]; norm_num
  · rw [h3]; simp [decVal]; norm_num
  · rw [h4]; simp [decVal]; norm_num

/-! ## C9 -/

/-- C9: the score is monotone in the average confidence, all other inputs
held fixed. -/
theorem score_result_mono_conf (c1 c2 : ℚ) (total : Option String) (n : ℕ)
    (h : c1 ≤ c2) : score_result c1 total n ≤ score_result c2 total n := by
  unfold score_result
  cases total <;> simp <;> linarith

/-- C9 (witness): instance at confidences 0 and 1. -/
theorem score_result_mono_conf_app :
    (0 : ℚ) ≤ 1 ∧ score_result 0 none 0 ≤ score_result 1 none 0 :=
  ⟨zero_le_one, score_result_mono_conf 0 1 none 0 zero_le_one⟩

/-! ## C10 -/

/-- C10: on a French/English keyword-count tie with nonzero counts,
`detect_language` returns `"fr"`, because the score map lists `fr` first and
Python's `max` keeps the first maximal item. -/
theorem detect_language_tie_fr (text : String)
    (heq : kwScore french_keywords (text.toList.map langNormChar) =
           kwScore english_keywords (text.toList.map langNormChar))
    (hpos : 0 < kwScore french_keywords (text.toList.map langNormChar)) :
    detect_language text = "fr" := by
  unfold detect_language pyMaxBySnd
  simp only [List.foldl_cons, List.foldl_nil]
  rw [if_neg (by omega : ¬ ("fr", kwScore french_keywords (text.toList.map langNormChar)).2 <
        ("en", kwScore english_keywords (text.toList.map langNormChar)).2)]
  rw [if_pos hpos]

/-- C10 (witness): `"facture invoice"` scores 1–1 and is classified `"fr"`. -/
theorem detect_language_tie_fr_app :
    (kwScore french_keywords ("facture invoice".toList.map langNormChar) =
     kwScore english_keywords ("facture invoice".toList.map langNormChar)) ∧
    (0 < kwScore french_keywords ("facture invoice".toList.map langNormChar)) ∧
    detect_language "facture invoice" = "fr" :=
  ⟨by decide, by decide, detect_language_tie_fr "facture invoice" (by decide) (by decide)⟩

/-! ## C1 -/

/-- C1: when the enhanced (processed) variant has zero recognised lines, both
arbitration functions choose the original variant.  For `select_best` the
empty variant's derived inputs force its score to 0 while the original's
score is nonnegative (line confidences are OCR confidences, hence
nonnegative), so the margin test fails; `select_best_orange` additionally
requires the chosen variant's line list to be non-empty, so the conclusion
there holds for arbitrary scores. -/
theorem select_best_empty_enhanced :
    (∀ ext_o : List RecLine, (∀ l ∈ ext_o, 0 ≤ l.conf) →
       (select_best ext_o []).chosen = "original")
  ∧ (∀ (ext_o : List RecLine) (conf_o : ℚ) (text_o : String)
       (conf_p : ℚ) (text_p : String),
       (select_best_orange ext_o conf_o text_o [] conf_p text_p).chosen = "original") := by
  constructor
  · intro ext_o h
    have hso : 0 ≤ score_result (avgConf ext_o)
        (find_total_in_text (fullText ext_o)) ext_o.length :=
      score_result_nonneg _ _ _ (avgConf_nonneg _ h)
    simp only [select_best]
    split
    · next hlt =>
        exfalso
        rw [score_result_empty] at hlt
        rw [show CONF_MARGIN = 0.02 from rfl] at hlt
        linarith
    · rfl
  · intro ext_o conf_o text_o conf_p text_p
    simp only [select_best_orange]
    rw [if_neg]
    · rintro ⟨-, h2⟩
      simp at h2

/-- C1 (witness): a one-line original result with confidence 1 against an
empty enhanced result, plus an orange-pipeline instance. -/
theorem select_best_empty_enhanced_app :
    (∀ l ∈ [wLine], 0 ≤ l.conf) ∧
    (select_best [wLine] []).chosen = "original" ∧
    (select_best_orange [] 0 "" [] 0 "").chosen = "original" :=
  ⟨by simp [wLine], select_best_empty_enhanced.1 [wLine] (by simp [wLine]),
   select_best_empty_enhanced.2 [] 0 "" 0 ""⟩

/-! ## C3 -/

/-- C3: the fallback of `find_total_in_text` returns `none` only when the
amount pattern matches nowhere in the text; and when the keyword phase found
nothing and every cleaned candidate fails to parse as a float, it returns
the last cleaned match rather than `none`. -/
theorem find_total_last_resort (text : String) :
    (find_total_in_text text = none → amtFindall text.toList = [])
  ∧ (keywordScan (pySplitlines text.toList).reverse = none →
     (∀ c ∈ (amtFindall text.toList).map cleanAmt, pyFloat (String.mk c) = none) →
     ∀ r ∈ ((amtFindall text.toList).map cleanAmt).getLast?,
       find_total_in_text text = some (String.mk r)) := by
  constructor
  · intro h
    rw [find_total_eq] at h
    cases hk : keywordScan (pySplitlines text.toList).reverse with
    | some s => rw [hk] at h; exact absurd h (by simp)
    | none =>
      rw [hk] at h
      unfold find_total_fallback at h
      by_cases hm : amtFindall text.toList = []
      · exact hm
      · exfalso
        rw [if_neg hm] at h
        by_cases ha : ((amtFindall text.toList).map cleanAmt).all
            (fun c => (pyFloat (String.mk c)).isSome) = true
        · rw [if_pos ha] at h; exact Option.noConfusion h
        · rw [if_neg ha] at h
          cases hl : ((amtFindall text.toList).map cleanAmt).getLast? with
          | some r => rw [hl] at h; exact Option.noConfusion h
          | none =>
            have : (amtFindall text.toList).map cleanAmt = [] :=
              List.getLast?_eq_none_iff.mp hl
            exact hm (List.map_eq_nil_iff.mp this)
  · intro hk hall r hr
    rw [Option.mem_def] at hr
    have hmem : r ∈ (amtFindall text.toList).map cleanAmt :=
      List.mem_of_getLast?_eq_some hr
    have hne : amtFindall text.toList ≠ [] := by
      intro h0
      rw [h0] at hr
      simp at hr
    have hafalse : ¬ ((amtFindall text.toList).map cleanAmt).all
        (fun c => (pyFloat (String.mk c)).isSome) = true := by
      intro hA
      have := List.all_eq_true.mp hA r hmem
      rw [hall r hmem] at this
      simp at this
    rw [find_total_eq, hk]
    unfold find_total_fallback
    rw [if_neg hne, if_neg hafalse, hr]

/-- C3 (witness): the empty text has no match and yields `none`; on
`"1,200,50"` the single cleaned candidate `"1.200.50"` fails to parse and is
returned as the last resort. -/
theorem find_total_last_resort_app :
    amtFindall "".toList = [] ∧
    find_total_in_text "1,200,50" = some (String.mk "1.200.50".toList) :=
  ⟨(find_total_last_resort "").1 (by decide),
   (find_total_last_resort "1,200,50").2 (by decide) (by decide)
     "1.200.50".toList (by decide)⟩

/-! ## C5 -/

/-- C5 (counterexample): on the keyword-free text `"45,50"` the sole
normalized match is `"45.50"`, but the function returns Python's
`str(max(nums))`, which is `"45.5"` — not the normalized match string. -/
theorem find_total_repr_cex :
    find_total_in_text "45,50" = some "45.5" ∧
    ("45.5" : String) ≠ "45.50" := by
  constructor
  · decide
  · decide

/-- C5 (amended): with no keyword line yielding an amount and every cleaned
candidate parseable, the fallback returns the string representation
(`str`) of the maximum parsed value — trailing zeros of the normalized match
are not preserved; on amounts 12.00, 999.99, 45.50 this is `"999.99"`. -/
theorem find_total_fallback_maximum :
    (∀ text : String,
       keywordScan (pySplitlines text.toList).reverse = none →
       amtFindall text.toList ≠ [] →
       ((amtFindall text.toList).map cleanAmt).all
         (fun c => (pyFloat (String.mk c)).isSome) = true →
       find_total_in_text text =
         some (pyFloatStr (decListMax (fallbackNums text.toList))))
  ∧ find_total_in_text "12,00\n999,99\n45,50" = some "999.99" := by
  constructor
  · intro text hk hne hall
    rw [find_total_eq, hk]
    unfold find_total_fallback
    rw [if_neg hne, if_pos hall]
    rfl
  · decide

/-- C5 (witness): the amended fallback rule applied to
`"12,00\n999,99\n45,50"`. -/
theorem find_total_fallback_maximum_app :
    keywordScan (pySplitlines "12,00\n999,99\n45,50".toList).reverse = none ∧
    find_total_in_text "12,00\n999,99\n45,50" =
      some (pyFloatStr (decListMax (fallbackNums "12,00\n999,99\n45,50".toList))) :=
  ⟨by decide,
   find_total_fallback_maximum.1 "12,00\n999,99\n45,50" (by decide) (by decide) (by decide)⟩

/-! ## Sorting lemmas for the structurer -/

/-- A strict comparison failure yields the reverse non-strict comparison. -/
theorem decLt_false_le {a b : Dec} (h : decLt a b = false) : decLe b a = true := by
  simp only [decLt, decide_eq_false_iff_not, Int.not_lt] at h
  simpa [decLe, decide_eq_true_eq] using h

/-- A strict comparison success is in particular non-strict. -/
theorem decLt_true_le {a b : Dec} (h : decLt a b = true) : decLe a b = true := by
  simp only [decLt, decide_eq_true_eq] at h
  simp only [decLe, decide_eq_true_eq]
  exact le_of_lt h

/-- `topLt` success gives the ascending order. -/
theorem topLt_le {a b : SLine} (h : topLt a b = true) : topLeProp a b :=
  decLt_true_le h

/-- `topLt` failure gives the reverse ascending order. -/
theorem topLt_false_le {a b : SLine} (h : topLt a b = false) : topLeProp b a :=
  decLt_false_le h

/-- The head of a stable insertion is the new element or the old head. -/
theorem stableInsert_head? (x : SLine) (l : List SLine) :
    ∀ z ∈ (stableInsert topLt x l).head?, z = x ∨ z ∈ l.head? := by
  cases l with
  | nil =>
    intro z hz
    simp only [stableInsert, List.head?_cons, Option.mem_def, Option.some.injEq] at hz
    left; exact hz.symm
  | cons y ys =>
    intro z hz
    by_cases h : topLt x y
    · simp only [stableInsert, if_pos h, List.head?_cons, Option.mem_def,
        Option.some.injEq] at hz
      left; exact hz.symm
    · simp only [stableInsert, if_neg h, List.head?_cons, Option.mem_def,
        Option.some.injEq] at hz
      right; simp [← hz]

/-- Stable insertion preserves the ascending chain. -/
theorem chain'_stableInsert (x : SLine) (l : List SLine)
    (h : List.Chain' topLeProp l) :
    List.Chain' topLeProp (stableInsert topLt x l) := by
  induction l with
  | nil => simp [stableInsert]
  | cons y ys ih =>
    by_cases hxy : topLt x y
    · simp only [stableInsert, if_pos hxy]
      exact List.Chain'.cons (topLt_le hxy) h
    · simp only [stableInsert, if_neg hxy]
      rw [List.chain'_cons']
      refine ⟨?_, ih h.tail⟩
      intro z hz
      rcases stableInsert_head? x ys z hz with rfl | hz2
      · exact topLt_false_le (Bool.not_eq_true _ ▸ (by simpa using hxy))
      · exact (List.chain'_cons'.mp h).1 z hz2

/-- Stable insertion is a permutation of consing. -/
theorem stableInsert_perm (x : SLine) (l : List SLine) :
    (stableInsert topLt x l).Perm (x :: l) := by
  induction l with
  | nil => exact List.Perm.refl _
  | cons y ys ih =>
    by_cases h : topLt x y
    · simp only [stableInsert, if_pos h]
      exact List.Perm.refl _
    · simp only [stableInsert, if_neg h]
      exact (ih.cons y).trans (List.Perm.swap x y ys)

/-- The insertion fold keeps the accumulated chain ascending. -/
theorem foldl_stableInsert_sorted :
    ∀ (l acc : List SLine), List.Chain' topLeProp acc →
      List.Chain' topLeProp (l.foldl (fun a x => stableInsert topLt x a) acc)
  | [], _, h => h
  | x :: xs, acc, h =>
    foldl_stableInsert_sorted xs _ (chain'_stableInsert x acc h)

/-- The insertion fold permutes the accumulator and the input. -/
theorem foldl_stableInsert_perm :
    ∀ (l acc : List SLine),
      (l.foldl (fun a x => stableInsert topLt x a) acc).Perm (acc ++ l) := by
  intro l
  induction l with
  | nil => intro acc; simpa using List.Perm.refl acc
  | cons x xs ih =>
    intro acc
    refine (ih (stableInsert topLt x acc)).trans ?_
    refine ((stableInsert_perm x acc).append_right xs).trans ?_
    simpa using List.perm_middle.symm

/-- The structurer's sort is ascending in the top coordinate. -/
theorem pySortLines_sorted (lines : List SLine) :
    List.Chain' topLeProp (pySortLines lines) :=
  foldl_stableInsert_sorted lines [] (by simp)

/-- The structurer's sort permutes its input. -/
theorem pySortLines_perm (lines : List SLine) :
    (pySortLines lines).Perm lines := by
  simpa using foldl_stableInsert_perm lines []

/-! ## The grouping loop invariant -/

/-- Invariant lemma for the walk of `group_lines_into_blocks`: starting from
a well-formed accumulator, the produced blocks concatenate to the processed
lines, are nonempty, are chained by the strict-gap relation inside, and are
separated by at least the threshold at the boundaries. -/
theorem groupGo_spec (y_gap : Dec) :
    ∀ (xs cur : List SLine) (blocks : List (List SLine)),
    List.Chain' (gapLtProp y_gap) cur →
    (∀ b ∈ blocks, b ≠ []) →
    (∀ b ∈ blocks, List.Chain' (gapLtProp y_gap) b) →
    List.Chain' (blockBoundary y_gap) blocks →
    (∀ bl ∈ blocks.getLast?, blockBoundary y_gap bl cur) →
    (cur = [] → blocks = []) →
    ((groupGo y_gap xs cur blocks).join = blocks.join ++ cur ++ xs ∧
     (∀ b ∈ groupGo y_gap xs cur blocks, b ≠ []) ∧
     (∀ b ∈ groupGo y_gap xs cur blocks, List.Chain' (gapLtProp y_gap) b) ∧
     List.Chain' (blockBoundary y_gap) (groupGo y_gap xs cur blocks)) := by
  intro xs
  induction xs with
  | nil =>
    intro cur blocks hcur hne hch hbd hlast _
    by_cases hc : cur.isEmpty
    · have hcnil : cur = [] := by simpa [List.isEmpty_iff] using hc
      subst hcnil
      simp only [groupGo, List.isEmpty_nil, if_true]
      exact ⟨by simp, hne, hch, hbd⟩
    · have hcne : cur ≠ [] := by simpa [List.isEmpty_iff] using hc
      simp only [groupGo, hc, if_false, Bool.false_eq_true]
      refine ⟨by simp, ?_, ?_, ?_⟩
      · intro b hb
        rcases List.mem_append.mp hb with h | h
        · exact hne b h
        · rw [List.mem_singleton.mp h]; exact hcne
      · intro b hb
        rcases List.mem_append.mp hb with h | h
        · exact hch b h
        · rw [List.mem_singleton.mp h]; exact hcur
      · refine List.chain'_append.mpr ⟨hbd, List.chain'_singleton _, ?_⟩
        intro bl hbl b2 hb2
        rw [List.head?_cons, Option.mem_def, Option.some.injEq] at hb2
        rw [← hb2]
        exact hlast bl hbl
  | cons ln rest ih =>
    intro cur blocks hcur hne hch hbd hlast hemp
    cases cur with
    | nil =>
      have hbnil : blocks = [] := hemp rfl
      subst hbnil
      simp only [groupGo]
      have := ih [ln] [] (List.chain'_singleton _) (by simp) (by simp)
        List.chain'_nil (by simp) (by simp)
      refine ⟨?_, this.2.1, this.2.2.1, this.2.2.2⟩
      rw [this.1]; simp
    | cons c cs =>
      simp only [groupGo]
      by_cases hgap : decLt (decSub (bbox_top ln.box)
          (bbox_bottom (((c :: cs).getLast (by simp)).box))) y_gap = true
      · rw [if_pos hgap]
        have hcur2 : List.Chain' (gapLtProp y_gap) ((c :: cs) ++ [ln]) := by
          refine List.chain'_append.mpr ⟨hcur, List.chain'_singleton _, ?_⟩
          intro x hx y hy
          rw [List.getLast?_eq_getLast (c :: cs) (by simp), Option.mem_def,
            Option.some.injEq] at hx
          rw [List.head?_cons, Option.mem_def, Option.some.injEq] at hy
          rw [← hx, ← hy] at *
          exact hgap
        have hlast2 : ∀ bl ∈ blocks.getLast?, blockBoundary y_gap bl ((c :: cs) ++ [ln]) := by
          intro bl hbl x hx y hy
          rw [List.cons_append, List.head?_cons, Option.mem_def,
            Option.some.injEq] at hy
          exact hlast bl hbl x hx y (by simp [← hy])
        have := ih ((c :: cs) ++ [ln]) blocks hcur2 hne hch hbd hlast2 (by simp)
        refine ⟨?_, this.2.1, this.2.2.1, this.2.2.2⟩
        rw [this.1]; simp
      · rw [if_neg hgap]
        have hbnd : blockBoundary y_gap (c :: cs) [ln] := by
          intro x hx y hy
          rw [List.getLast?_eq_getLast (c :: cs) (by simp), Option.mem_def,
            Option.some.injEq] at hx
          rw [List.head?_cons, Option.mem_def, Option.some.injEq] at hy
          intro hcontra
          rw [← hx, ← hy] at hcontra
          exact hgap hcontra
        have hne2 : ∀ b ∈ blocks ++ [c :: cs], b ≠ [] := by
          intro b hb
          rcases List.mem_append.mp hb with h | h
          · exact hne b h
          · rw [List.mem_singleton.mp h]; simp
        have hch2 : ∀ b ∈ blocks ++ [c :: cs], List.Chain' (gapLtProp y_gap) b := by
          intro b hb
          rcases List.mem_append.mp hb with h | h
          · exact hch b h
          · rw [List.mem_singleton.mp h]; exact hcur
        have hbd2 : List.Chain' (blockBoundary y_gap) (blocks ++ [c :: cs]) := by
          refine List.chain'_append.mpr ⟨hbd, List.chain'_singleton _, ?_⟩
          intro bl hbl b2 hb2
          rw [List.head?_cons, Option.mem_def, Option.some.injEq] at hb2
          rw [← hb2]
          exact hlast bl hbl
        have hlast2 : ∀ bl ∈ (blocks ++ [c :: cs]).getLast?, blockBoundary y_gap bl [ln] := by
          intro bl hbl
          rw [List.getLast?_concat, Option.mem_def, Option.some.injEq] at hbl
          rw [← hbl]
          exact hbnd
        have := ih [ln] (blocks ++ [c :: cs]) (List.chain'_singleton _)
          hne2 hch2 hbd2 hlast2 (by simp)
        refine ⟨?_, this.2.1, this.2.2.1, this.2.2.2⟩
        rw [this.1]; simp

/-- Blocks produced by the grouping are never empty (shared consequence of
the loop invariant). -/
theorem group_blocks_ne_nil (lines : List SLine) (y_gap : Dec) :
    ∀ b ∈ group_lines_into_blocks lines y_gap, b ≠ [] :=
  (groupGo_spec y_gap (pySortLines lines) [] [] List.chain'_nil (by simp)
    (by simp) List.chain'_nil (by simp) (by simp)).2.1

/-! ## C7 -/

/-- C7: `group_lines_into_blocks` sorts the lines by top coordinate
(ascending chain, permutation of the input) and partitions the sorted list
into blocks whose consecutive lines have gap strictly below the threshold,
with at least the threshold between consecutive blocks; on the lines with
tops 10, 20 (bottoms 30) and 100 the first two share a block and the third
opens a new one. -/
theorem group_lines_blocks_spec (lines : List SLine) (y_gap : Dec) :
    ((group_lines_into_blocks lines y_gap).join = pySortLines lines
  ∧ List.Chain' topLeProp (pySortLines lines)
  ∧ (pySortLines lines).Perm lines
  ∧ (∀ b ∈ group_lines_into_blocks lines y_gap, b ≠ [])
  ∧ (∀ b ∈ group_lines_into_blocks lines y_gap, List.Chain' (gapLtProp y_gap) b)
  ∧ List.Chain' (blockBoundary y_gap) (group_lines_into_blocks lines y_gap))
  ∧ group_lines_into_blocks [exLine1, exLine2, exLine3] =
      [[exLine1, exLine2], [exLine3]] := by
  have h := groupGo_spec y_gap (pySortLines lines) [] [] List.chain'_nil
    (by simp) (by simp) List.chain'_nil (by simp) (by simp)
  refine ⟨⟨?_, pySortLines_sorted lines, pySortLines_perm lines,
    h.2.1, h.2.2.1, h.2.2.2⟩, by decide⟩
  have hj := h.1
  simpa using hj

/-- C7 (witness): the block of the first two example lines is produced and is
chained by the strict-gap relation. -/
theorem group_lines_blocks_spec_app :
    [exLine1, exLine2] ∈ group_lines_into_blocks [exLine1, exLine2, exLine3] ∧
    List.Chain' (gapLtProp ⟨40, 0⟩) [exLine1, exLine2] :=
  ⟨by decide,
   (group_lines_blocks_spec [exLine1, exLine2, exLine3] ⟨40, 0⟩).1.2.2.2.2.1
     [exLine1, exLine2] (by decide)⟩

/-! ## C8 -/

/-- Membership in an enumerated map comes from membership in the base list. -/
theorem enumMap1_mem {f : Nat → α → β} {y : β} :
    ∀ {i : Nat} {l : List α}, y ∈ enumMap1 f i l → ∃ j x, x ∈ l ∧ y = f j x := by
  intro i l
  induction l generalizing i with
  | nil => intro h; simp [enumMap1] at h
  | cons a as ih =>
    intro h
    rcases List.mem_cons.mp h with h1 | h2
    · exact ⟨i, a, List.mem_cons_self a as, h1⟩
    · obtain ⟨j, x, hx, hy⟩ := ih h2
      exact ⟨j, x, List.mem_cons_of_mem a hx, hy⟩

/-- Mapping over an enumerated map composes pointwise. -/
theorem enumMap1_map (h : β → γ) (f : Nat → α → β) :
    ∀ (i : Nat) (l : List α),
      (enumMap1 f i l).map h = enumMap1 (fun j x => h (f j x)) i l := by
  intro i l
  induction l generalizing i with
  | nil => rfl
  | cons a as ih => simp [enumMap1, ih]

/-- An index-independent enumerated map is a plain map. -/
theorem enumMap1_const (g : α → β) :
    ∀ (i : Nat) (l : List α), enumMap1 (fun _ x => g x) i l = l.map g := by
  intro i l
  induction l generalizing i with
  | nil => rfl
  | cons a as ih => simp [enumMap1, ih]

/-- An enumerated map of a nonempty list is nonempty. -/
theorem enumMap1_ne_nil {f : Nat → α → β} {i : Nat} {l : List α} (h : l ≠ []) :
    enumMap1 f i l ≠ [] := by
  cases l with
  | nil => exact absurd rfl h
  | cons a as => simp [enumMap1]

/-- C8: every block emitted by the structurer carries the coordinate-wise
union (min-left, min-top, max-right, max-bottom) of its line records'
bboxes as its own bbox, and holds at least one line. -/
theorem structure_blocks_bbox_union (lines : List SLine) :
    ∀ blk ∈ structure_ocr_blocks lines,
      blk.bbox = lineBBoxUnion blk.lines ∧ blk.lines ≠ [] := by
  intro blk hblk
  unfold structure_ocr_blocks at hblk
  obtain ⟨i, block, hbmem, rfl⟩ := enumMap1_mem hblk
  constructor
  · show bbox_union (block.map SLine.box) = lineBBoxUnion (enumMap1 _ 1 block)
    unfold lineBBoxUnion bbox_union
    simp only [enumMap1_map, List.getD_cons_zero, List.getD_cons_succ,
      enumMap1_const, List.map_map, Function.comp_def]
  · exact enumMap1_ne_nil (group_blocks_ne_nil lines _ block hbmem)

/-- C8 (witness): the example block of lines with bboxes `[0,0,10,10]` and
`[5,5,20,20]` is produced with bbox `[0,0,20,20]`, the union of the two. -/
theorem structure_blocks_bbox_union_app :
    exBlock ∈ structure_ocr_blocks [exBoxA, exBoxB] ∧
    exBlock.bbox = lineBBoxUnion exBlock.lines ∧ exBlock.lines ≠ [] :=
  ⟨by decide, structure_blocks_bbox_union [exBoxA, exBoxB] exBlock (by decide)⟩

end InvoicePipeline
